import Mathlib

set_option autoImplicit false

/-!
# Verification of the CodeLLM_Bridge scanning core

A shallow embedding, in Lean 4, of the scanning / filtering / watchdog /
fallback core of `CodeLLM_Bridge.py`.  The filesystem is abstracted as a
record of pure functions (`FileSys`); the Python functions are translated
one-for-one into Lean functions over that abstraction.  Recursive directory
walks receive a `fuel` (recursion-depth) argument: the Python code recurses
without an explicit bound, and its termination rests on the visited-set
deduplication, which is itself proved below.  All definitions are structurally
recursive so that concrete scenarios evaluate inside the kernel.

String manipulation is done on `List Char` (`String.data`), mirroring
Python's code-point string model.
-/

namespace CodeLLMBridge

/-! ## POSIX path helpers (`os.path.basename`, `os.path.dirname`, `os.path.join`) -/

/-- Prefix test on character lists. -/
def prefixChars : List Char → List Char → Bool
  | [], _ => true
  | _ :: _, [] => false
  | a :: as, b :: bs => a = b && prefixChars as bs

/-- Python `s.startswith(pre)`. -/
def pyStartsWith (s pre : String) : Bool := prefixChars pre.data s.data

/-- Python `s.endswith(suf)`. -/
def pyEndsWith (s suf : String) : Bool := prefixChars suf.data.reverse s.data.reverse

/-- Python whitespace, as stripped by `str.strip()`. -/
def isPySpace (c : Char) : Bool :=
  c = ' ' || c = '\t' || c = '\n' || c = '\x0d' || c = '\x0b' || c = '\x0c'

/-- Python `s.strip()`. -/
def pyStrip (s : String) : String :=
  ⟨((s.data.dropWhile isPySpace).reverse.dropWhile isPySpace).reverse⟩

/-- Python `s.lower()` (ASCII is all the source needs). -/
def pyLower (s : String) : String := ⟨s.data.map Char.toLower⟩

/-- Characters after the last `'/'` (the whole list when there is no slash). -/
def basenameChars : List Char → List Char
  | [] => []
  | c :: rest =>
    if rest.contains '/' then basenameChars rest
    else if c = '/' then rest
    else c :: rest

/-- `os.path.basename` with POSIX separator semantics. -/
def basename (p : String) : String :=
  ⟨basenameChars p.data⟩

/-- Characters up to and including the last `'/'` (empty when there is no slash). -/
def dirHeadChars : List Char → List Char
  | [] => []
  | c :: rest =>
    if rest.contains '/' then c :: dirHeadChars rest
    else if c = '/' then [c]
    else []

/-- Drop trailing `'/'` characters. -/
def rstripSlashes (cs : List Char) : List Char :=
  (cs.reverse.dropWhile (· = '/')).reverse

/-- `os.path.dirname` with POSIX separator semantics: the head up to the last
slash, with trailing slashes stripped unless the head consists only of slashes. -/
def dirname (p : String) : String :=
  let head := dirHeadChars p.data
  if head ≠ [] ∧ ¬ head.all (· = '/') then ⟨rstripSlashes head⟩ else ⟨head⟩

/-- `os.path.join a b` with POSIX separator semantics. -/
def joinPath (a b : String) : String :=
  if pyStartsWith b "/" then b
  else if a = "" ∨ pyEndsWith a "/" then a ++ b
  else a ++ "/" ++ b

/-! ## Lexicographic string ordering and sorting (`sorted(...)` on code points) -/

/-- Code-point lexicographic `≤` on character lists, as Python compares strings. -/
def charsLe : List Char → List Char → Bool
  | [], _ => true
  | _ :: _, [] => false
  | a :: as, b :: bs => if a = b then charsLe as bs else decide (a < b)

/-- Python `s1 <= s2` on strings. -/
def strLe (a b : String) : Bool := charsLe a.data b.data

/-- Insert into a `strLe`-sorted list. -/
def insertSorted (x : String) : List String → List String
  | [] => [x]
  | y :: ys => if strLe x y then x :: y :: ys else y :: insertSorted x ys

/-- `sorted(...)` for lists of strings (stable insertion sort, code-point order). -/
def sortStrings (l : List String) : List String := l.foldr insertSorted []

/-! ## Shell glob matching (`fnmatch.fnmatch`, POSIX `normcase`)

`fnmatch` translates the pattern into an anchored regex where `*` matches any
(possibly empty) run of characters including `/`, `?` matches a single
character, and `[...]`/`[!...]` are character classes with ranges.  An
unterminated `[` is a literal bracket.  The matcher below consumes at least
one pattern or text character per step, so `pattern.length + text.length + 1`
fuel always suffices.
-/

/-- Scan to the closing `']'` of a character class; returns the class body and
the remainder of the pattern, or `none` when the class is unterminated. -/
def findClose : List Char → Option (List Char × List Char)
  | [] => none
  | c :: rest =>
    if c = ']' then some ([], rest)
    else
      match findClose rest with
      | none => none
      | some (body, r) => some (c :: body, r)

/-- Parse a character class following `'['`: optional leading `'!'` negation,
then a leading `']'` is a literal member, then scan to the closing `']'`. -/
def parseClass (ps : List Char) : Option (Bool × List Char × List Char) :=
  match ps with
  | '!' :: ']' :: t =>
    match findClose t with
    | some (body, r) => some (true, ']' :: body, r)
    | none => none
  | '!' :: t =>
    match findClose t with
    | some (body, r) => some (true, body, r)
    | none => none
  | ']' :: t =>
    match findClose t with
    | some (body, r) => some (false, ']' :: body, r)
    | none => none
  | t =>
    match findClose t with
    | some (body, r) => some (false, body, r)
    | none => none

/-- Membership of a character in a class body, with `a-b` ranges. -/
def classMem (c : Char) : List Char → Bool
  | a :: '-' :: b :: rest => (decide (a ≤ c) && decide (c ≤ b)) || classMem c rest
  | a :: rest => decide (a = c) || classMem c rest
  | [] => false

/-- The anchored glob matcher: `globMatchF fuel pattern text`.  Every branch
consumes at least one character of the pattern or of the text, so the fuel
supplied by `globMatch` can never run out. -/
def globMatchF : Nat → List Char → List Char → Bool
  | 0, _, _ => false
  | _ + 1, [], s => s.isEmpty
  | fuel + 1, '*' :: ps, s =>
    globMatchF fuel ps s ||
      (match s with
       | [] => false
       | _ :: s' => globMatchF fuel ('*' :: ps) s')
  | fuel + 1, '?' :: ps, s =>
    (match s with
     | [] => false
     | _ :: s' => globMatchF fuel ps s')
  | fuel + 1, '[' :: ps, s =>
    (match parseClass ps with
     | some (neg, body, ps') =>
       (match s with
        | [] => false
        | c :: s' => (neg ≠ classMem c body) && globMatchF fuel ps' s')
     | none =>
       (match s with
        | '[' :: s' => globMatchF fuel ps s'
        | _ => false))
  | fuel + 1, p :: ps, s =>
    (match s with
     | [] => false
     | c :: s' => (p = c) && globMatchF fuel ps s')

/-- Anchored glob match of `text` against `pattern`. -/
def globMatch (pattern text : List Char) : Bool :=
  globMatchF (pattern.length + text.length + 1) pattern text

/-- `fnmatch.fnmatch(name, pat)` on a POSIX host (`normcase` is the identity). -/
def fnmatch (name pat : String) : Bool := globMatch pat.data name.data

/-! ## The ignore matcher (`filters_match`, source lines 1804-1830) -/

/-- The relevant configuration read by `filters_match`: the user-supplied
patterns (`self.ignore_patterns`), the built-in patterns
(`self.default_ignore_patterns`) and the "filter system folders" toggle. -/
structure FilterConfig where
  ignore_patterns : List String
  default_ignore_patterns : List String
  filter_system_folders : Bool

/-- `self.default_ignore_patterns` (source lines 330-342). -/
def default_ignore_patterns : List String :=
  ["*/.git/*", "*/.venv/*", "*/__pycache__/*", "*/.vs/*", "*/.vscode/*",
   "*/.idea/*", "*/node_modules/*", "*/build/*", "*/dist/*", "*/.svn/*",
   "*/.DS_Store"]

/-- `filters_match(self, path)` (source lines 1804-1830): normalize separators
to `/`; return true if any stripped nonempty user pattern matches; if the
system-folder filter is enabled, also if any stripped nonempty built-in
pattern matches or the basename starts with `'.'` and has length `> 1`. -/
def filters_match (cfg : FilterConfig) (path : String) : Bool :=
  let fpath : String := ⟨path.data.map (fun c => if c = '\\' then '/' else c)⟩
  (cfg.ignore_patterns.any fun pat =>
    let pclean := pyStrip pat
    pclean ≠ "" && fnmatch fpath pclean) ||
  (cfg.filter_system_folders &&
    ((cfg.default_ignore_patterns.any fun pat =>
        let pclean := pyStrip pat
        pclean ≠ "" && fnmatch fpath pclean) ||
     (let b := basename path
      pyStartsWith b "." && decide (b.length > 1))))

/-! ## The abstract filesystem

The scanner's interactions with the OS are abstracted as pure functions.
`probe` is the outcome of the threaded / alarm-based access probe used for
"potentially problematic" paths (`check_folder_access_with_timeout`): its
result depends on wall-clock behaviour of the mount, so it is an oracle of
the model.  `statOk` records whether `os.path.samefile` / `os.path.isdir`
raise `OSError` for a path (the source skips the entry in that case).
-/

structure FileSys where
  pathExists : String → Bool
  isDir : String → Bool
  islink : String → Bool
  listdir : String → Option (List String)
  realpath : String → String
  statOk : String → Bool
  probe : String → Bool

/-- `is_potentially_problematic_path(self, path)` (source lines 2661-2682):
UNC prefixes, remote-protocol schemes, length over 200, or a failing
existence check. -/
def is_potentially_problematic_path (fs : FileSys) (path : String) : Bool :=
  pyStartsWith path "\\\\" || pyStartsWith path "//" ||
  (["ftp://", "sftp://", "ftps://"].any fun proto => pyStartsWith (pyLower path) proto) ||
  decide (path.length > 200) ||
  !fs.pathExists path

/-- `check_folder_access_with_timeout(self, folder_path)` (source lines
1312-1376): non-problematic paths get a direct exists-and-isdir check;
problematic paths get the bounded probe. -/
def check_folder_access_with_timeout (fs : FileSys) (folder_path : String) : Bool :=
  if !is_potentially_problematic_path fs folder_path then
    fs.pathExists folder_path && fs.isDir folder_path
  else
    fs.probe folder_path

/-! ## The TreeNode mapping (`folder_tree_data`) and scan state -/

/-- One value of `folder_tree_data`: `{'checked': bool, 'is_dir': bool}`. -/
structure NodeInfo where
  checked : Bool
  is_dir : Bool
deriving DecidableEq, Repr

/-- `folder_tree_data` as an insertion-ordered association list, the shallow
embedding of a Python `dict` (unique keys, insertion order preserved). -/
abbrev FolderData := List (String × NodeInfo)

/-- First-match lookup (Python `d[k]` / `k in d`). -/
def lookupEntry {β : Type} : List (String × β) → String → Option β
  | [], _ => none
  | e :: rest, p => if e.1 = p then some e.2 else lookupEntry rest p

/-- Python `d[k] = v`: overwrite in place when the key exists, else append. -/
def setEntry (ftd : FolderData) (path : String) (v : NodeInfo) : FolderData :=
  if (lookupEntry ftd path).isSome then
    ftd.map fun e => if e.1 = path then (path, v) else e
  else ftd ++ [(path, v)]

/-- The scanning subsystem's state: the TreeNode mapping and the visited set
(`self.folder_tree_data`, `self.visited_dirs`).  `expanded` is a ghost trace
recording the canonical path of every directory whose contents were listed by
the scanner; it exists only to state the at-most-once-expansion invariant. -/
structure ScanState where
  folder_tree_data : FolderData
  visited_dirs : List String
  expanded : List String
deriving Repr

/-! ## The recursive scanner (`add_directory_contents`, source lines 1378-1439) -/

/-- The body of the `for item in items` loop of `add_directory_contents`
(source lines 1395-1439).  `recur` is the recursive call one level deeper.
`os.path.samefile(directory_path, path)` is modelled as equality of canonical
paths; a failing `samefile`/`isdir` (`statOk = false`) skips the entry, as the
source's `except` clauses do. -/
def scanItemStep (fs : FileSys) (cfg : FilterConfig)
    (recur : String → ScanState → ScanState)
    (directory_path : String) (st : ScanState) (item : String) : ScanState :=
  let path := joinPath directory_path item
  if filters_match cfg path then st
  else if !fs.statOk path then st
  else
    let child_real := fs.realpath path
    if fs.realpath directory_path = child_real then st
    else if decide (child_real ∈ st.visited_dirs) && fs.isDir path then st
    else
      let is_dir := fs.isDir path
      let st1 := { st with folder_tree_data := setEntry st.folder_tree_data path ⟨false, is_dir⟩ }
      if is_dir then
        let st2 := { st1 with visited_dirs := st1.visited_dirs.insert child_real }
        if !is_potentially_problematic_path fs path then recur path st2 else st2
      else st1

/-- `add_directory_contents(self, directory_path, parent_id)` (source lines
1378-1439): access check, sorted listing, then the per-item loop.  `fuel`
bounds the recursion depth (the source has no such bound; see the
deduplication theorem for why it terminates on real filesystems). -/
def add_directory_contents (fs : FileSys) (cfg : FilterConfig) :
    Nat → String → ScanState → ScanState
  | 0, _, st => st
  | fuel + 1, directory_path, st =>
    let accessible :=
      if is_potentially_problematic_path fs directory_path then
        check_folder_access_with_timeout fs directory_path
      else
        fs.pathExists directory_path && fs.isDir directory_path
    if !accessible then st
    else
      match fs.listdir directory_path with
      | none => st
      | some names =>
        let st' := { st with expanded := st.expanded ++ [fs.realpath directory_path] }
        (sortStrings names).foldl
          (fun s it =>
            scanItemStep fs cfg (fun p s' => add_directory_contents fs cfg fuel p s')
              directory_path s it)
          st'

/-- `build_tree_for(self, folder)` (source lines 1276-1310): access check,
visited-set dedup on the canonical path, root registration (note: without
any ignore-pattern check), then the recursive listing. -/
def build_tree_for (fs : FileSys) (cfg : FilterConfig) (fuel : Nat)
    (folder : String) (st : ScanState) : ScanState :=
  if !check_folder_access_with_timeout fs folder then st
  else
    let realp := fs.realpath folder
    if decide (realp ∈ st.visited_dirs) then st
    else
      let st1 := { st with visited_dirs := st.visited_dirs.insert realp }
      let st2 :=
        if (lookupEntry st1.folder_tree_data folder).isSome then st1
        else { st1 with folder_tree_data := setEntry st1.folder_tree_data folder ⟨false, true⟩ }
      add_directory_contents fs cfg fuel folder st2

/-- `build_all_trees(self)` (source lines 1181-1197): clear everything, reset
the visited set, then build a tree for each existing root folder. -/
def build_all_trees (fs : FileSys) (cfg : FilterConfig) (fuel : Nat)
    (root_folders : List String) : ScanState :=
  root_folders.foldl
    (fun st folder => if fs.pathExists folder then build_tree_for fs cfg fuel folder st else st)
    ⟨[], [], []⟩

/-! ## The incremental poller (`poll_folder`, source lines 1848-1898) -/

/-- `os.walk(folder)` (top-down, `followlinks=False`): yields
`(root, dirs, files)` triples; it lists symlinked directories in `dirs` but
does not descend into them.  `fuel` bounds the walk depth. -/
def walk (fs : FileSys) : Nat → String → List (String × List String × List String)
  | 0, _ => []
  | fuel + 1, top =>
    match fs.listdir top with
    | none => []
    | some names =>
      let dirs := names.filter fun n => fs.isDir (joinPath top n)
      let files := names.filter fun n => !fs.isDir (joinPath top n)
      (top, dirs, files) ::
        (dirs.filter fun d => !fs.islink (joinPath top d)).foldr
          (fun d acc => walk fs fuel (joinPath top d) ++ acc) []

/-- The body of `poll_folder`'s `for root, dirs, files in os.walk(folder)`
loop (source lines 1856-1898). -/
def poll_walk_entry (fs : FileSys) (cfg : FilterConfig) (st : ScanState)
    (entry : String × List String × List String) : ScanState :=
  let root := entry.1
  let dirs := entry.2.1
  let files := entry.2.2
  let root_real := fs.realpath root
  if filters_match cfg root || decide (root_real ∈ st.visited_dirs) then st
  else
    let stR :=
      if (lookupEntry st.folder_tree_data root).isSome then st
      else
        { st with folder_tree_data := setEntry st.folder_tree_data root ⟨false, true⟩,
                  visited_dirs := st.visited_dirs.insert root_real }
    let stD := dirs.foldl (fun s d =>
      let dpath := joinPath root d
      let dreal := fs.realpath dpath
      if filters_match cfg dpath || decide (dreal ∈ s.visited_dirs) then s
      else if fs.realpath root = dreal then s
      else if (lookupEntry s.folder_tree_data dpath).isSome then s
      else
        { s with folder_tree_data := setEntry s.folder_tree_data dpath ⟨false, true⟩,
                 visited_dirs := s.visited_dirs.insert dreal }) stR
    files.foldl (fun s f =>
      let fpath := joinPath root f
      let freal := fs.realpath fpath
      if filters_match cfg fpath || decide (freal ∈ s.visited_dirs) then s
      else if fs.realpath root = freal then s
      else if (lookupEntry s.folder_tree_data fpath).isSome then s
      else
        { s with folder_tree_data := setEntry s.folder_tree_data fpath ⟨false, false⟩,
                 visited_dirs := s.visited_dirs.insert freal }) stD

/-- `poll_folder(self)` (source lines 1848-1898): for each existing root
folder, walk it with `os.walk` and add unseen, unfiltered entries. -/
def poll_folder (fs : FileSys) (cfg : FilterConfig) (fuel : Nat)
    (root_folders : List String) (st : ScanState) : ScanState :=
  root_folders.foldl
    (fun s folder =>
      if fs.pathExists folder then (walk fs fuel folder).foldl (poll_walk_entry fs cfg) s
      else s)
    st

/-- `n` successive `poll_folder` passes (the periodic `schedule_folder_poll`). -/
def poll_iter (fs : FileSys) (cfg : FilterConfig) (fuel : Nat) (root_folders : List String) :
    Nat → ScanState → ScanState
  | 0, st => st
  | n + 1, st => poll_iter fs cfg fuel root_folders n (poll_folder fs cfg fuel root_folders st)

/-! ## Saved checked state (`apply_saved_checks` / `save_settings`) -/

/-- `self.folder_tree_data[path]['checked'] = checked` for an existing path. -/
def set_checked (ftd : FolderData) (path : String) (checked : Bool) : FolderData :=
  ftd.map fun e => if e.1 = path then (e.1, ⟨checked, e.2.is_dir⟩) else e

/-- `apply_saved_checks(self)` (source lines 1742-1771), restricted to its
effect on `folder_tree_data`: apply each saved check whose path exists in the
mapping and is not filtered out. -/
def apply_saved_checks (cfg : FilterConfig) (saved_folder_checks : List (String × Bool))
    (ftd : FolderData) : FolderData :=
  saved_folder_checks.foldl
    (fun acc pc =>
      if (lookupEntry acc pc.1).isSome && !filters_match cfg pc.1 then
        set_checked acc pc.1 pc.2
      else acc)
    ftd

/-- The configuration fields written by `save_settings(self)` (source lines
2460-2487) that the claims are about. -/
structure SavedConfig where
  root_folders : List String
  folder_checks : List (String × Bool)
  ignore_patterns : List String
  filter_system_folders : Bool
  enable_timeouts : Bool

/-- `save_settings(self)` (source lines 2460-2487): the `folder_checks` field
gets one entry per path of `folder_tree_data`, carrying its checked state; the
`enable_timeouts` field is the current value of the app-wide toggle. -/
def save_settings (root_folders : List String) (ftd : FolderData)
    (ignore_patterns : List String) (filter_system_folders enable_timeouts : Bool) :
    SavedConfig :=
  { root_folders := root_folders
    folder_checks := ftd.map fun e => (e.1, e.2.checked)
    ignore_patterns := ignore_patterns
    filter_system_folders := filter_system_folders
    enable_timeouts := enable_timeouts }

/-! ## Export-time validation and the export selections -/

/-- `validate_checked_items(self)` (source lines 2289-2313): the first pass
unchecks every filtered entry and collects the visible paths; the second pass
unchecks entries whose path is not visible. -/
def validate_checked_items (cfg : FilterConfig) (ftd : FolderData) : FolderData :=
  let pass1 := ftd.map fun e =>
    if filters_match cfg e.1 then (e.1, ⟨false, e.2.is_dir⟩) else e
  let visible_paths := (ftd.map Prod.fst).filter fun p => !filters_match cfg p
  pass1.map fun e =>
    if !decide (e.1 ∈ visible_paths) && e.2.checked then (e.1, ⟨false, e.2.is_dir⟩) else e

/-- The selection made by `build_checked_file_tree_text` (source line 2327):
all checked paths. -/
def checked_paths (ftd : FolderData) : List String :=
  (ftd.filter fun e => e.2.checked).map Prod.fst

/-- The selection made by `build_file_contents_text` (source line 2417):
all checked non-directory paths. -/
def checked_files (ftd : FolderData) : List String :=
  (ftd.filter fun e => e.2.checked && !e.2.is_dir).map Prod.fst

/-- `self.folder_tree_data[child]['is_dir']` with a `false` default. -/
def is_dir_of (ftd : FolderData) (p : String) : Bool :=
  match lookupEntry ftd p with
  | some i => i.is_dir
  | none => false

/-- The per-child loop of `build_full_file_tree_text.recurse` (source lines
2393-2401); `recur` is the recursive call for subdirectories. -/
def full_tree_items (ftd : FolderData) (recur : String → String → List String)
    (pre : String) : List String → List String
  | [] => []
  | c :: rest =>
    let branch := if rest.isEmpty then "└── " else "├── "
    (if is_dir_of ftd c then recur c (pre ++ branch)
     else [pre ++ branch ++ basename c]) ++ full_tree_items ftd recur pre rest

/-- `build_full_file_tree_text.recurse(path, prefix)` (source lines
2379-2401): emit the node's own line, then its children, directories first,
each lexicographically sorted.  The checked state is never consulted. -/
def full_tree_recurse (ftd : FolderData) : Nat → String → String → List String
  | 0, _, _ => []
  | fuel + 1, path, pre =>
    let base := if basename path = "" then path else basename path
    let firstLine := if pre = "" then path else pre ++ base
    let children := (ftd.map Prod.fst).filter fun p => dirname p = path
    let subdirs := sortStrings (children.filter fun c => is_dir_of ftd c)
    let subfiles := sortStrings (children.filter fun c => !is_dir_of ftd c)
    firstLine ::
      full_tree_items ftd (fun c newpre => full_tree_recurse ftd fuel c newpre) pre
        (subdirs ++ subfiles)

/-- `build_full_file_tree_text(self)` (source lines 2373-2407): the lines of
the full-tree export, over every existing root folder present in the mapping. -/
def build_full_file_tree_text (fs : FileSys) (fuel : Nat) (root_folders : List String)
    (ftd : FolderData) : List String :=
  if root_folders.isEmpty then ["No folders selected."]
  else
    root_folders.foldl
      (fun lines rf =>
        if fs.pathExists rf && (lookupEntry ftd rf).isSome then
          lines ++ full_tree_recurse ftd fuel rf ""
        else lines)
      []

/-! ## The loading dialog's cancellation flag (`LoadingDialog`, source lines 19-150) -/

/-- The values taken by `LoadingDialog.cancelled`: `False` initially (line
24), then one of the strings `"skip"`, `"cancel"`, `"disable_timeouts"`. -/
inductive CancelFlag
  | notCancelled
  | skip
  | cancel
  | disableTimeouts
deriving DecidableEq, Repr

/-- `on_skip(self)` (source lines 117-120): `self.cancelled = "skip"`. -/
def on_skip (_ : CancelFlag) : CancelFlag := .skip

/-- `on_cancel(self)` (source lines 122-125): `self.cancelled = "cancel"`. -/
def on_cancel (_ : CancelFlag) : CancelFlag := .cancel

/-- `on_disable_timeouts(self)` (source lines 127-134):
`self.cancelled = "disable_timeouts"`.  The skip and cancel buttons stay
wired to `on_skip` / `on_cancel`; lines 131-134 merely relabel them. -/
def on_disable_timeouts (_ : CancelFlag) : CancelFlag := .disableTimeouts

/-- `is_cancelled(self)` (source lines 136-138): `self.cancelled != False`. -/
def is_cancelled (c : CancelFlag) : Bool := c ≠ CancelFlag.notCancelled

/-- A dialog button press writing the flag. -/
inductive DialogEvent
  | pressSkip
  | pressCancel
  | pressDisable
deriving DecidableEq, Repr

/-- Dispatch one button press to its handler. -/
def applyEvent (c : CancelFlag) : DialogEvent → CancelFlag
  | .pressSkip => on_skip c
  | .pressCancel => on_cancel c
  | .pressDisable => on_disable_timeouts c

/-- A sequence of button presses within one scan attempt. -/
def applyEvents : CancelFlag → List DialogEvent → CancelFlag
  | c, [] => c
  | c, e :: es => applyEvents (applyEvent c e) es

/-! ## The thread-based watchdog monitors -/

/-- One observation made by a monitor iteration: whether the worker thread is
still alive, what the dialog's cancellation flag holds, and the elapsed
wall-clock seconds `time.time() - start_time` (modelled as a rational). -/
structure Poll where
  threadAlive : Bool
  cancelFlag : CancelFlag
  elapsed : ℚ

/-- The outcome of a monitored scan attempt. -/
inductive MonitorOutcome
  | timedOut
  | cancelledByUser
  | finished
  | stillRunning
deriving DecidableEq, Repr

/-- State consulted by the `load_settings_windows_timeout_with_dialog`
monitor loop (source lines 2849-2878): the app-wide `enable_timeouts`
variable and the loop-local `timeouts_disabled`. -/
structure WtdState where
  enable_timeouts : Bool
  timeouts_disabled : Bool
deriving DecidableEq, Repr

/-- The `while thread.is_alive()` monitor loop of
`load_settings_windows_timeout_with_dialog` (source lines 2852-2878), run
over a trace of observations.  On `disable_timeouts` the loop sets the local
flag AND clears the app-wide `enable_timeouts` variable (source line 2864);
on `skip`/`cancel` it breaks and the function raises
`TimeoutError("User cancelled loading")` (lines 2885-2888); otherwise, when
timeouts are still enabled and `elapsed > timeout`, it raises `TimeoutError`
immediately (lines 2872-2875) — there is no grace period in this loop.
Returns the outcome together with the final monitor state. -/
def wtdRun (timeoutSeconds : ℚ) : WtdState → List Poll → MonitorOutcome × WtdState
  | s, [] => (.stillRunning, s)
  | s, p :: rest =>
    if p.threadAlive then
      let s' :=
        match p.cancelFlag with
        | .disableTimeouts => { enable_timeouts := false, timeouts_disabled := true }
        | _ => s
      match p.cancelFlag with
      | .skip => (.cancelledByUser, s')
      | .cancel => (.cancelledByUser, s')
      | _ =>
        if (!s'.timeouts_disabled && s'.enable_timeouts) && decide (p.elapsed > timeoutSeconds) then
          (.timedOut, s')
        else wtdRun timeoutSeconds s' rest
    else (.finished, s)

/-- `_monitor_thread_non_blocking` (source lines 4805-4842), run over a trace
of observations.  `timeoutSeconds = none` means timeout checks are disabled
(the `disable_timeouts` branch overwrites the local variable with `None`,
line 4817).  It declares `timedOut` only once the elapsed time has reached
the budget plus the single 30-second grace period (lines 4819-4831). -/
def monitorRun : Option ℚ → List Poll → MonitorOutcome
  | _, [] => .stillRunning
  | timeoutSeconds, p :: rest =>
    if p.threadAlive then
      let ts :=
        match p.cancelFlag with
        | .disableTimeouts => none
        | _ => timeoutSeconds
      match p.cancelFlag with
      | .skip => .cancelledByUser
      | .cancel => .cancelledByUser
      | _ =>
        match ts with
        | some t =>
          if decide (p.elapsed > t) then
            if decide (p.elapsed < t + 30) then monitorRun ts rest
            else .timedOut
          else monitorRun ts rest
        | none => monitorRun none rest
    else .finished

/-! ## The fallback profile selector (`find_working_fallback_profile`, source
lines 3195-3231) -/

/-- The environment read by the fallback selector. -/
structure ProfileStore where
  /-- `self.current_profile`: the profile whose load failed. -/
  currentProfile : String
  /-- The `*.json` names (without extension) found in `PROFILES_DIR`. -/
  profilesDir : List String
  /-- `os.path.exists(CONFIG_FILE)`. -/
  configFileExists : Bool
  /-- `os.path.exists(PROFILES_DIR/<name>.json)`. -/
  profileFileExists : String → Bool
  /-- `json.load(...).get("root_folders", [])`; `none` models an exception. -/
  readRoots : String → Option (List String)
  /-- `is_potentially_problematic_path` at selection time. -/
  problematic : String → Bool

/-- `get_available_profiles(self)` (source lines 2602-2609): `"default"` plus
the profile files, sorted. -/
def get_available_profiles (st : ProfileStore) : List String :=
  sortStrings ("default" :: st.profilesDir)

/-- `os.path.exists(profile_path)` for a candidate (source line 3205). -/
def profile_path_exists (st : ProfileStore) (p : String) : Bool :=
  if p = "default" then st.configFileExists else st.profileFileExists p

/-- The `for profile_name in ...` loop of `find_working_fallback_profile`
(source lines 3200-3229) together with the final `return "default"`
(line 3231).  `continue` on the failed profile, on a missing profile file and
on a read exception; early `return "default"` when the default profile's
config file does not yet exist. -/
def fallback_loop (st : ProfileStore) : List String → String
  | [] => "default"
  | p :: rest =>
    if p = st.currentProfile then fallback_loop st rest
    else if p = "default" && !st.configFileExists then "default"
    else if !profile_path_exists st p then fallback_loop st rest
    else
      match st.readRoots p with
      | none => fallback_loop st rest
      | some roots =>
        if roots.any st.problematic then fallback_loop st rest else p

/-- `find_working_fallback_profile(self)` (source lines 3195-3231): scan the
candidates with `"default"` ranked first, skipping the failed profile. -/
def find_working_fallback_profile (st : ProfileStore) : String :=
  fallback_loop st
    ("default" :: (get_available_profiles st).filter fun p => p ≠ "default")

/-- Spec-form candidate acceptance: `p` is accepted when it differs from the
failed profile and either is the not-yet-created default profile or has a
readable configuration none of whose root folders is flagged. -/
def fallback_accepts (st : ProfileStore) (p : String) : Bool :=
  decide (p ≠ st.currentProfile) &&
  ((p = "default" && !st.configFileExists) ||
   (profile_path_exists st p &&
    match st.readRoots p with
    | none => false
    | some roots => !roots.any st.problematic))

/-- Spec-form selector (the specification's `ChooseFallback`): the first
accepted candidate in preference order, the default profile when none is. -/
def chooseFallbackSpec (st : ProfileStore) : String :=
  (("default" :: (get_available_profiles st).filter fun p => p ≠ "default").find?
    fun p => fallback_accepts st p).getD "default"

/-! ## Specification predicates -/

/-- Every entry of a mapping satisfies `P`. -/
def EntriesSat (P : String → NodeInfo → Prop) (ftd : FolderData) : Prop :=
  ∀ e ∈ ftd, P e.1 e.2

/-- The scan-state invariant behind cycle safety: the ghost expansion trace
has no duplicates and only mentions canonical paths already in the visited
set. -/
def GoodState (st : ScanState) : Prop :=
  st.expanded.Nodup ∧ ∀ r ∈ st.expanded, r ∈ st.visited_dirs

/-! ## Concrete instances used by the scenario claims -/

/-- The filesystem of the spec's scenario: root `/proj` containing
`.git/config`, `src/a.py` and `src/a.py~`. -/
def fs6 : FileSys :=
  { pathExists := fun p =>
      decide (p ∈ ["/proj", "/proj/.git", "/proj/src", "/proj/.git/config",
                   "/proj/src/a.py", "/proj/src/a.py~"])
    isDir := fun p => decide (p ∈ ["/proj", "/proj/.git", "/proj/src"])
    islink := fun _ => false
    listdir := fun p =>
      if p = "/proj" then some [".git", "src"]
      else if p = "/proj/.git" then some ["config"]
      else if p = "/proj/src" then some ["a.py", "a.py~"]
      else none
    realpath := fun p => p
    statOk := fun _ => true
    probe := fun _ => true }

/-- The scenario's configuration: ignore patterns `*/.git/*` and `*~`, with
the system-folder filter at its default (enabled) value. -/
def cfg6 : FilterConfig := ⟨["*/.git/*", "*~"], default_ignore_patterns, true⟩

/-- A one-directory filesystem whose root is `/proj` (used to exhibit the
ignore-matched-root behaviour). -/
def fsRoot : FileSys :=
  { pathExists := fun p => decide (p = "/proj")
    isDir := fun p => decide (p = "/proj")
    islink := fun _ => false
    listdir := fun p => if p = "/proj" then some [] else none
    realpath := fun p => p
    statOk := fun _ => true
    probe := fun _ => true }

/-- A configuration whose user ignore pattern matches the root `/proj` itself. -/
def cfgRoot : FilterConfig := ⟨["/proj"], default_ignore_patterns, true⟩

/-- A mapping holding the checked root `/proj` (as left behind by an earlier
scan before the ignore pattern was added). -/
def ftdRoot : FolderData := [("/proj", ⟨true, true⟩)]

/-- A profile store in which the default profile itself failed and no other
profile exists. -/
def c4Store : ProfileStore :=
  { currentProfile := "default"
    profilesDir := []
    configFileExists := true
    profileFileExists := fun _ => false
    readRoots := fun _ => some []
    problematic := fun _ => false }

/-! ## Lemmas: the association-list dictionary -/

theorem lookupEntry_mem {β : Type} :
    ∀ (l : List (String × β)) (p : String) (v : β),
      lookupEntry l p = some v → (p, v) ∈ l := by
  intro l
  induction l with
  | nil => simp [lookupEntry]
  | cons e rest ih =>
    obtain ⟨k, w⟩ := e
    intro p v h
    simp only [lookupEntry] at h
    by_cases hk : k = p
    · subst hk
      rw [if_pos rfl] at h
      simp only [Option.some.injEq] at h
      subst h
      exact List.mem_cons_self _ _
    · rw [if_neg hk] at h
      exact List.mem_cons_of_mem _ (ih p v h)

theorem entriesSat_setEntry {P : String → NodeInfo → Prop} {ftd : FolderData}
    {p : String} {v : NodeInfo}
    (h : EntriesSat P ftd) (hp : P p v) : EntriesSat P (setEntry ftd p v) := by
  intro e he
  unfold setEntry at he
  split at he
  · obtain ⟨a, ha, rfl⟩ := List.mem_map.mp he
    by_cases h1 : a.1 = p
    · simp only [h1, if_pos]
      exact hp
    · simp only [h1, if_neg, if_false]
      exact h a ha
  · rcases List.mem_append.mp he with h1 | h1
    · exact h e h1
    · simp only [List.mem_singleton] at h1
      subst h1
      exact hp

/-! ## Lemmas: fold invariants -/

theorem foldl_inv {α σ : Type _} {Q : σ → Prop} {f : σ → α → σ}
    (hf : ∀ s a, Q s → Q (f s a)) :
    ∀ (l : List α) (s : σ), Q s → Q (l.foldl f s) := by
  intro l
  induction l with
  | nil => intro s h; simpa using h
  | cons a rest ih => intro s h; exact ih (f s a) (hf s a h)

theorem foldl_inv_mem {α σ : Type _} {Q : σ → Prop} {f : σ → α → σ} :
    ∀ (l : List α), (∀ s a, a ∈ l → Q s → Q (f s a)) →
      ∀ s, Q s → Q (l.foldl f s) := by
  intro l
  induction l with
  | nil => intro _ s h; simpa using h
  | cons a rest ih =>
    intro hf s h
    exact ih (fun s b hb => hf s b (List.mem_cons_of_mem _ hb)) (f s a)
      (hf s a (List.mem_cons_self _ _) h)

/-! ## Lemmas: every path inserted by the scanner and the poller satisfies
an entry predicate that holds for unfiltered insertions -/

theorem scanItemStep_entriesSat {fs : FileSys} {cfg : FilterConfig}
    {P : String → NodeInfo → Prop}
    (hIns : ∀ path d, filters_match cfg path = false → P path ⟨false, d⟩)
    {recur : String → ScanState → ScanState}
    (hrec : ∀ p st, EntriesSat P st.folder_tree_data →
      EntriesSat P (recur p st).folder_tree_data)
    (dp : String) (st : ScanState) (item : String)
    (h : EntriesSat P st.folder_tree_data) :
    EntriesSat P (scanItemStep fs cfg recur dp st item).folder_tree_data := by
  unfold scanItemStep
  dsimp only
  split
  · exact h
  next h1 =>
    have h1' : filters_match cfg (joinPath dp item) = false := by
      simpa using h1
    split
    · exact h
    · split
      · exact h
      · split
        · exact h
        · split
          · split
            · exact hrec _ _ (entriesSat_setEntry h (hIns _ _ h1'))
            · exact entriesSat_setEntry h (hIns _ _ h1')
          · exact entriesSat_setEntry h (hIns _ _ h1')

theorem add_directory_contents_entriesSat {fs : FileSys} {cfg : FilterConfig}
    {P : String → NodeInfo → Prop}
    (hIns : ∀ path d, filters_match cfg path = false → P path ⟨false, d⟩) :
    ∀ (fuel : Nat) (dp : String) (st : ScanState),
      EntriesSat P st.folder_tree_data →
      EntriesSat P (add_directory_contents fs cfg fuel dp st).folder_tree_data := by
  intro fuel
  induction fuel with
  | zero =>
    intro dp st h
    simpa [add_directory_contents] using h
  | succ fuel ih =>
    intro dp st h
    unfold add_directory_contents
    dsimp only
    have hstep : ∀ (names : List String),
        EntriesSat P ((sortStrings names).foldl
          (fun s it => scanItemStep fs cfg
            (fun p s' => add_directory_contents fs cfg fuel p s') dp s it)
          { st with expanded := st.expanded ++ [fs.realpath dp] }).folder_tree_data :=
      fun names =>
        foldl_inv (Q := fun (s : ScanState) => EntriesSat P s.folder_tree_data)
          (fun s a hs => scanItemStep_entriesSat hIns (fun p st' h' => ih p st' h') dp s a hs)
          (sortStrings names) { st with expanded := st.expanded ++ [fs.realpath dp] } h
    split <;> split <;> try exact h
    all_goals (split <;> first | exact h | exact hstep _)

theorem build_tree_for_entriesSat {fs : FileSys} {cfg : FilterConfig}
    {P : String → NodeInfo → Prop}
    (hIns : ∀ path d, filters_match cfg path = false → P path ⟨false, d⟩)
    (fuel : Nat) (folder : String) (st : ScanState)
    (hRoot : P folder ⟨false, true⟩)
    (h : EntriesSat P st.folder_tree_data) :
    EntriesSat P (build_tree_for fs cfg fuel folder st).folder_tree_data := by
  unfold build_tree_for
  dsimp only
  split
  · exact h
  · split
    · exact h
    · apply add_directory_contents_entriesSat hIns
      split
      · exact h
      · exact entriesSat_setEntry h hRoot

theorem build_all_trees_entriesSat {fs : FileSys} {cfg : FilterConfig}
    {P : String → NodeInfo → Prop}
    (hIns : ∀ path d, filters_match cfg path = false → P path ⟨false, d⟩)
    (fuel : Nat) (roots : List String)
    (hRoots : ∀ f ∈ roots, P f ⟨false, true⟩) :
    EntriesSat P (build_all_trees fs cfg fuel roots).folder_tree_data := by
  unfold build_all_trees
  refine foldl_inv_mem (Q := fun (s : ScanState) => EntriesSat P s.folder_tree_data) roots ?_ _ ?_
  · intro s folder hmem hs
    split
    · exact build_tree_for_entriesSat hIns _ _ _ (hRoots folder hmem) hs
    · exact hs
  · intro e he
    simp at he

theorem poll_walk_entry_entriesSat {fs : FileSys} {cfg : FilterConfig}
    {P : String → NodeInfo → Prop}
    (hIns : ∀ path d, filters_match cfg path = false → P path ⟨false, d⟩)
    (st : ScanState) (entry : String × List String × List String)
    (h : EntriesSat P st.folder_tree_data) :
    EntriesSat P (poll_walk_entry fs cfg st entry).folder_tree_data := by
  unfold poll_walk_entry
  dsimp only
  split
  · exact h
  next hcond =>
    have hroot : filters_match cfg entry.1 = false := by
      simp only [Bool.or_eq_true, decide_eq_true_eq, not_or, Bool.not_eq_true] at hcond
      exact hcond.1
    have hR : EntriesSat P (if (lookupEntry st.folder_tree_data entry.1).isSome = true
        then st
        else { st with
                folder_tree_data := setEntry st.folder_tree_data entry.1 ⟨false, true⟩,
                visited_dirs := st.visited_dirs.insert (fs.realpath entry.1) }).folder_tree_data := by
      split
      · exact h
      · exact entriesSat_setEntry h (hIns _ _ hroot)
    refine foldl_inv (Q := fun (s : ScanState) => EntriesSat P s.folder_tree_data) ?_ _ _
      (foldl_inv (Q := fun (s : ScanState) => EntriesSat P s.folder_tree_data) ?_ _ _ hR)
    · intro s f hs
      dsimp only
      split
      · exact hs
      next hc =>
        have hf : filters_match cfg (joinPath entry.1 f) = false := by
          simp only [Bool.or_eq_true, decide_eq_true_eq, not_or, Bool.not_eq_true] at hc
          exact hc.1
        split
        · exact hs
        · split
          · exact hs
          · exact entriesSat_setEntry hs (hIns _ _ hf)
    · intro s d hs
      dsimp only
      split
      · exact hs
      next hc =>
        have hd : filters_match cfg (joinPath entry.1 d) = false := by
          simp only [Bool.or_eq_true, decide_eq_true_eq, not_or, Bool.not_eq_true] at hc
          exact hc.1
        split
        · exact hs
        · split
          · exact hs
          · exact entriesSat_setEntry hs (hIns _ _ hd)

theorem poll_folder_entriesSat {fs : FileSys} {cfg : FilterConfig}
    {P : String → NodeInfo → Prop}
    (hIns : ∀ path d, filters_match cfg path = false → P path ⟨false, d⟩)
    (fuel : Nat) (roots : List String) (st : ScanState)
    (h : EntriesSat P st.folder_tree_data) :
    EntriesSat P (poll_folder fs cfg fuel roots st).folder_tree_data := by
  unfold poll_folder
  refine foldl_inv (Q := fun (s : ScanState) => EntriesSat P s.folder_tree_data) ?_ _ _ h
  intro s folder hs
  split
  · exact foldl_inv (Q := fun (s' : ScanState) => EntriesSat P s'.folder_tree_data)
      (fun s' e hs' => poll_walk_entry_entriesSat hIns s' e hs') _ _ hs
  · exact hs

theorem poll_iter_entriesSat {fs : FileSys} {cfg : FilterConfig}
    {P : String → NodeInfo → Prop}
    (hIns : ∀ path d, filters_match cfg path = false → P path ⟨false, d⟩)
    (fuel : Nat) (roots : List String) :
    ∀ (n : Nat) (st : ScanState),
      EntriesSat P st.folder_tree_data →
      EntriesSat P (poll_iter fs cfg fuel roots n st).folder_tree_data := by
  intro n
  induction n with
  | zero => intro st h; simpa [poll_iter] using h
  | succ n ih =>
    intro st h
    unfold poll_iter
    exact ih _ (poll_folder_entriesSat hIns fuel roots st h)

/-! ## Lemmas: each canonical directory path is expanded at most once -/

theorem scanItemStep_goodState {fs : FileSys} {cfg : FilterConfig}
    {recur : String → ScanState → ScanState}
    (hrec : ∀ p st, GoodState st → fs.realpath p ∈ st.visited_dirs →
      fs.realpath p ∉ st.expanded → GoodState (recur p st))
    (dp : String) (st : ScanState) (item : String)
    (h : GoodState st) :
    GoodState (scanItemStep fs cfg recur dp st item) := by
  unfold scanItemStep
  dsimp only
  split
  · exact h
  · split
    · exact h
    · split
      · exact h
      · split
        · exact h
        next hguard =>
          split
          next hdir =>
            split
            next hprob =>
              apply hrec
              · exact ⟨h.1, fun r hr => List.mem_insert_of_mem (h.2 r hr)⟩
              · exact List.mem_insert_self _ _
              · intro hmem
                have hv : fs.realpath (joinPath dp item) ∈ st.visited_dirs := h.2 _ hmem
                exact absurd (by simp [hv, hdir]) hguard
            next hprob =>
              exact ⟨h.1, fun r hr => List.mem_insert_of_mem (h.2 r hr)⟩
          next hdir => exact h

theorem add_directory_contents_goodState {fs : FileSys} {cfg : FilterConfig} :
    ∀ (fuel : Nat) (dp : String) (st : ScanState),
      GoodState st → fs.realpath dp ∈ st.visited_dirs → fs.realpath dp ∉ st.expanded →
      GoodState (add_directory_contents fs cfg fuel dp st) := by
  intro fuel
  induction fuel with
  | zero =>
    intro dp st h _ _
    simpa [add_directory_contents] using h
  | succ fuel ih =>
    intro dp st h hv hx
    unfold add_directory_contents
    dsimp only
    have hstep : ∀ (names : List String),
        GoodState ((sortStrings names).foldl
          (fun s it => scanItemStep fs cfg
            (fun p s' => add_directory_contents fs cfg fuel p s') dp s it)
          { st with expanded := st.expanded ++ [fs.realpath dp] }) := by
      intro names
      refine foldl_inv (Q := GoodState)
        (fun s a hs => scanItemStep_goodState
          (fun p st' h' hv' hx' => ih p st' h' hv' hx') dp s a hs) _ _ ?_
      constructor
      · rw [List.nodup_append]
        refine ⟨h.1, List.nodup_singleton _, ?_⟩
        intro a ha hb
        simp only [List.mem_singleton] at hb
        subst hb
        exact hx ha
      · intro r hr
        rcases List.mem_append.mp hr with h1 | h1
        · exact h.2 r h1
        · simp only [List.mem_singleton] at h1
          subst h1
          exact hv
    split <;> split <;> try exact h
    all_goals (split <;> first | exact h | exact hstep _)

theorem build_tree_for_goodState {fs : FileSys} {cfg : FilterConfig}
    (fuel : Nat) (folder : String) (st : ScanState)
    (h : GoodState st) :
    GoodState (build_tree_for fs cfg fuel folder st) := by
  unfold build_tree_for
  dsimp only
  split
  · exact h
  · split
    · exact h
    next hnv =>
      have hnv' : fs.realpath folder ∉ st.visited_dirs := by simpa using hnv
      apply add_directory_contents_goodState
      · split <;> exact ⟨h.1, fun r hr => List.mem_insert_of_mem (h.2 r hr)⟩
      · split <;> exact List.mem_insert_self _ _
      · split <;> exact fun hx => hnv' (h.2 _ hx)

theorem build_all_trees_goodState {fs : FileSys} {cfg : FilterConfig}
    (fuel : Nat) (roots : List String) :
    GoodState (build_all_trees fs cfg fuel roots) := by
  unfold build_all_trees
  refine foldl_inv_mem (Q := GoodState) roots ?_ _ ?_
  · intro s folder _ hs
    split
    · exact build_tree_for_goodState _ _ _ hs
    · exact hs
  · exact ⟨List.nodup_nil, by simp⟩

/-! ## Lemmas: saved-check application (`apply_saved_checks`) -/

theorem lookupEntry_eq_none_of_not_mem {β : Type} :
    ∀ (l : List (String × β)) (p : String), p ∉ l.map Prod.fst →
      lookupEntry l p = none := by
  intro l
  induction l with
  | nil => intro p _; rfl
  | cons e rest ih =>
    obtain ⟨k, w⟩ := e
    intro p h
    simp only [List.map_cons, List.mem_cons, not_or] at h
    simp only [lookupEntry, if_neg (fun hk : k = p => h.1 hk.symm)]
    exact ih p h.2

theorem set_checked_cons (k : String) (w : NodeInfo) (rest : FolderData)
    (p : String) (b : Bool) :
    set_checked ((k, w) :: rest) p b =
      (if k = p then (k, ⟨b, w.is_dir⟩) else (k, w)) :: set_checked rest p b := rfl

theorem lookupEntry_set_checked_self :
    ∀ (ftd : FolderData) (p : String) (b : Bool),
      lookupEntry (set_checked ftd p b) p =
        (lookupEntry ftd p).map (fun i => (⟨b, i.is_dir⟩ : NodeInfo)) := by
  intro ftd
  induction ftd with
  | nil => intro p b; rfl
  | cons e rest ih =>
    obtain ⟨k, w⟩ := e
    intro p b
    rw [set_checked_cons]
    by_cases hk : k = p
    · subst hk
      simp [lookupEntry]
    · rw [if_neg hk]
      simp only [lookupEntry, if_neg hk]
      exact ih p b

theorem lookupEntry_set_checked_ne :
    ∀ (ftd : FolderData) (p : String) (b : Bool) (q : String), q ≠ p →
      lookupEntry (set_checked ftd p b) q = lookupEntry ftd q := by
  intro ftd
  induction ftd with
  | nil => intro p b q _; rfl
  | cons e rest ih =>
    obtain ⟨k, w⟩ := e
    intro p b q hq
    rw [set_checked_cons]
    by_cases hk : k = p
    · subst hk
      rw [if_pos rfl]
      simp only [lookupEntry, if_neg (fun h : k = q => hq h.symm)]
      exact ih k b q hq
    · rw [if_neg hk]
      simp only [lookupEntry]
      by_cases hkq : k = q
      · simp [hkq]
      · simp only [if_neg hkq]
        exact ih p b q hq

theorem apply_saved_checks_nil (cfg : FilterConfig) (ftd : FolderData) :
    apply_saved_checks cfg [] ftd = ftd := rfl

theorem apply_saved_checks_cons (cfg : FilterConfig) (pc : String × Bool)
    (rest : List (String × Bool)) (ftd : FolderData) :
    apply_saved_checks cfg (pc :: rest) ftd =
      apply_saved_checks cfg rest
        (if (lookupEntry ftd pc.1).isSome && !filters_match cfg pc.1 then
          set_checked ftd pc.1 pc.2
        else ftd) := rfl

theorem apply_saved_checks_not_saved (cfg : FilterConfig) :
    ∀ (saved : List (String × Bool)) (ftd : FolderData) (p : String),
      lookupEntry saved p = none →
      lookupEntry (apply_saved_checks cfg saved ftd) p = lookupEntry ftd p := by
  intro saved
  induction saved with
  | nil => intro ftd p _; rfl
  | cons qc rest ih =>
    obtain ⟨q, c⟩ := qc
    intro ftd p h
    simp only [lookupEntry] at h
    by_cases hq : q = p
    · rw [if_pos hq] at h
      simp at h
    · rw [if_neg hq] at h
      rw [apply_saved_checks_cons]
      rw [ih _ p h]
      dsimp only
      split
      · exact lookupEntry_set_checked_ne _ _ _ _ (fun hpq => hq hpq.symm)
      · rfl

theorem apply_saved_checks_lookup (cfg : FilterConfig) :
    ∀ (saved : List (String × Bool)) (ftd : FolderData) (p : String) (b : Bool),
      (saved.map Prod.fst).Nodup →
      lookupEntry saved p = some b →
      lookupEntry (apply_saved_checks cfg saved ftd) p =
        if (lookupEntry ftd p).isSome && !filters_match cfg p then
          (lookupEntry ftd p).map (fun i => (⟨b, i.is_dir⟩ : NodeInfo))
        else lookupEntry ftd p := by
  intro saved
  induction saved with
  | nil => intro ftd p b _ h; simp [lookupEntry] at h
  | cons qc rest ih =>
    obtain ⟨q, c⟩ := qc
    intro ftd p b hnd h
    simp only [List.map_cons, List.nodup_cons] at hnd
    obtain ⟨hqnot, hndr⟩ := hnd
    simp only [lookupEntry] at h
    rw [apply_saved_checks_cons]
    dsimp only
    by_cases hq : q = p
    · subst hq
      rw [if_pos rfl] at h
      have hb : c = b := by simpa using h
      subst hb
      have hrest : lookupEntry rest q = none :=
        lookupEntry_eq_none_of_not_mem rest q hqnot
      rw [apply_saved_checks_not_saved cfg rest _ q hrest]
      split
      · exact lookupEntry_set_checked_self _ _ _
      · rfl
    · rw [if_neg hq] at h
      rw [ih _ p b hndr h]
      have hacc : lookupEntry
          (if (lookupEntry ftd q).isSome && !filters_match cfg q then
            set_checked ftd q c
          else ftd) p = lookupEntry ftd p := by
        split
        · exact lookupEntry_set_checked_ne _ _ _ _ (fun hpq => hq hpq.symm)
        · rfl
      rw [hacc]

theorem lookupEntry_folder_checks :
    ∀ (ftd : FolderData) (p : String),
      lookupEntry (ftd.map fun e => (e.1, e.2.checked)) p =
        (lookupEntry ftd p).map NodeInfo.checked := by
  intro ftd
  induction ftd with
  | nil => intro p; rfl
  | cons e rest ih =>
    obtain ⟨k, w⟩ := e
    intro p
    by_cases hk : k = p
    · simp [lookupEntry, hk]
    · simp only [List.map_cons, lookupEntry, if_neg hk]
      exact ih p

theorem folder_checks_keys (ftd : FolderData) :
    (ftd.map fun e => (e.1, e.2.checked)).map Prod.fst = ftd.map Prod.fst := by
  simp [List.map_map]

theorem build_all_trees_unchecked (fs : FileSys) (cfg : FilterConfig)
    (fuel : Nat) (roots : List String) :
    EntriesSat (fun _ v => v.checked = false)
      (build_all_trees fs cfg fuel roots).folder_tree_data :=
  build_all_trees_entriesSat (P := fun _ v => v.checked = false)
    (fun _ _ _ => rfl) fuel roots (fun _ _ => rfl)

/-! ## Lemmas: export-time validation -/

theorem validate_checked_entries (cfg : FilterConfig) (ftd : FolderData) :
    ∀ e ∈ validate_checked_items cfg ftd, e.2.checked = true →
      filters_match cfg e.1 = false := by
  intro e he hc
  unfold validate_checked_items at he
  obtain ⟨a, ha, rfl⟩ := List.mem_map.mp he
  obtain ⟨a0, ha0, rfl⟩ := List.mem_map.mp ha
  by_cases hm : filters_match cfg a0.1 = true
  · exfalso
    rw [if_pos hm] at hc
    simp at hc
  · have h1 : filters_match cfg a0.1 = false := by simpa using hm
    rw [if_neg hm]
    split
    · dsimp only
      exact h1
    · exact h1

/-! ## Lemmas: the watchdog monitor loops -/

theorem monitorRun_timedOut_iff :
    ∀ (T : ℚ) (polls : List Poll),
      (∀ p ∈ polls, p.threadAlive = true ∧ p.cancelFlag = CancelFlag.notCancelled) →
      (monitorRun (some T) polls = .timedOut ↔ ∃ p ∈ polls, T + 30 ≤ p.elapsed) := by
  intro T polls
  induction polls with
  | nil => intro _; simp [monitorRun]
  | cons p rest ih =>
    intro h
    have hp := h p (List.mem_cons_self _ _)
    have hrest := fun q hq => h q (List.mem_cons_of_mem _ hq)
    rw [monitorRun]
    rw [if_pos hp.1, hp.2]
    dsimp only
    by_cases h1 : T + 30 ≤ p.elapsed
    · have hgt : p.elapsed > T := by linarith
      have hnlt : ¬ p.elapsed < T + 30 := not_lt.mpr h1
      simp only [hgt, decide_true_eq_true, decide_eq_true_eq, if_pos hgt, if_neg hnlt]
      constructor
      · intro _
        exact ⟨p, List.mem_cons_self _ _, h1⟩
      · intro _
        rfl
    · have h2 : p.elapsed < T + 30 := lt_of_not_le h1
      have hred : (if decide (p.elapsed > T) = true then
          (if decide (p.elapsed < T + 30) = true then monitorRun (some T) rest
           else MonitorOutcome.timedOut)
          else monitorRun (some T) rest) = monitorRun (some T) rest := by
        by_cases h3 : p.elapsed > T
        · simp [h3, h2]
        · simp [h3]
      rw [hred, ih hrest]
      constructor
      · rintro ⟨q, hq, hle⟩
        exact ⟨q, List.mem_cons_of_mem _ hq, hle⟩
      · rintro ⟨q, hq, hle⟩
        rcases List.mem_cons.mp hq with hq1 | hq1
        · subst hq1; exact absurd hle h1
        · exact ⟨q, hq1, hle⟩

theorem wtdRun_timedOut_iff :
    ∀ (T : ℚ) (polls : List Poll),
      (∀ p ∈ polls, p.threadAlive = true ∧ p.cancelFlag = CancelFlag.notCancelled) →
      ((wtdRun T ⟨true, false⟩ polls).1 = .timedOut ↔ ∃ p ∈ polls, T < p.elapsed) := by
  intro T polls
  induction polls with
  | nil => intro _; simp [wtdRun]
  | cons p rest ih =>
    intro h
    have hp := h p (List.mem_cons_self _ _)
    have hrest := fun q hq => h q (List.mem_cons_of_mem _ hq)
    rw [wtdRun]
    rw [if_pos hp.1, hp.2]
    dsimp only
    by_cases h1 : T < p.elapsed
    · simp only [if_pos h1, decide_eq_true_eq, gt_iff_lt]
      have : (decide (p.elapsed > T)) = true := by simpa using h1
      simp only [this, Bool.and_true, Bool.not_false, Bool.and_self, if_true]
      constructor
      · intro _
        exact ⟨p, List.mem_cons_self _ _, h1⟩
      · intro _
        trivial
    · have : (decide (p.elapsed > T)) = false := by simpa using h1
      simp only [this, Bool.and_false, Bool.false_eq_true, if_false, Bool.not_false,
        Bool.true_and]
      rw [ih hrest]
      constructor
      · rintro ⟨q, hq, hle⟩
        exact ⟨q, List.mem_cons_of_mem _ hq, hle⟩
      · rintro ⟨q, hq, hle⟩
        rcases List.mem_cons.mp hq with hq1 | hq1
        · subst hq1; exact absurd hle h1
        · exact ⟨q, hq1, hle⟩

theorem wtdRun_enable_false :
    ∀ (T : ℚ) (polls : List Poll) (s : WtdState),
      s.enable_timeouts = false →
      (wtdRun T s polls).1 ≠ .timedOut ∧ (wtdRun T s polls).2.enable_timeouts = false := by
  intro T polls
  induction polls with
  | nil =>
    intro s hs
    exact ⟨by simp [wtdRun], hs⟩
  | cons p rest ih =>
    intro s hs
    rw [wtdRun]
    by_cases ha : p.threadAlive = true
    · rw [if_pos ha]
      cases hc : p.cancelFlag with
      | notCancelled =>
        dsimp only
        have : (!s.timeouts_disabled && s.enable_timeouts) = false := by
          rw [hs, Bool.and_false]
        rw [this]
        simp only [Bool.false_and, Bool.false_eq_true, if_false]
        exact ih s hs
      | skip => exact ⟨by simp, hs⟩
      | cancel => exact ⟨by simp, hs⟩
      | disableTimeouts =>
        dsimp only
        simp only [Bool.not_true, Bool.false_and, Bool.false_eq_true, if_false]
        exact ih _ rfl
    · rw [if_neg ha]
      exact ⟨by simp, hs⟩

/-! ## Lemmas: the fallback selector agrees with its first-match specification -/

theorem fallback_loop_eq_find (st : ProfileStore) :
    ∀ (l : List String),
      fallback_loop st l = (l.find? (fallback_accepts st)).getD "default" := by
  intro l
  induction l with
  | nil => rfl
  | cons p rest ih =>
    by_cases h1 : p = st.currentProfile
    · have ha : fallback_accepts st p = false := by
        simp [fallback_accepts, h1]
      rw [List.find?_cons_of_neg _ (by simp only [ha]; exact Bool.false_ne_true)]
      rw [fallback_loop, if_pos h1]
      exact ih
    · by_cases h2 : (p = "default" && !st.configFileExists) = true
      · have ha : fallback_accepts st p = true := by
          simp only [fallback_accepts, h2, Bool.true_or, Bool.and_true]
          simpa using h1
        rw [List.find?_cons_of_pos _ ha]
        rw [fallback_loop, if_neg h1, if_pos h2]
        simp only [Bool.and_eq_true] at h2
        have hp : p = "default" := by simpa using h2.1
        simp [hp]
      · by_cases h3 : profile_path_exists st p = true
        · cases hr : st.readRoots p with
          | none =>
            have ha : fallback_accepts st p = false := by
              simp [fallback_accepts, h2, hr]
            rw [List.find?_cons_of_neg _ (by simp only [ha]; exact Bool.false_ne_true)]
            rw [fallback_loop, if_neg h1, if_neg h2, if_neg (by simp [h3]), hr]
            exact ih
          | some roots =>
            by_cases h4 : roots.any st.problematic = true
            · have ha : fallback_accepts st p = false := by
                simp [fallback_accepts, h2, hr, h4]
              rw [List.find?_cons_of_neg _ (by simp only [ha]; exact Bool.false_ne_true)]
              rw [fallback_loop, if_neg h1, if_neg h2, if_neg (by simp [h3]), hr]
              dsimp only
              rw [if_pos h4]
              exact ih
            · have h4' : ∀ x ∈ roots, st.problematic x = false := by
                intro x hx
                by_contra hb
                exact h4 (List.any_eq_true.mpr ⟨x, hx, by simpa using hb⟩)
              have ha : fallback_accepts st p = true := by
                simp [fallback_accepts, hr, h1, h3]
                exact Or.inr h4'
              rw [List.find?_cons_of_pos _ ha]
              rw [fallback_loop, if_neg h1, if_neg h2, if_neg (by simp [h3]), hr]
              dsimp only
              rw [if_neg h4]
              rfl
        · have ha : fallback_accepts st p = false := by
            simp [fallback_accepts, h2, h3]
          rw [List.find?_cons_of_neg _ (by simp only [ha]; exact Bool.false_ne_true)]
          have h3' : profile_path_exists st p = false := by
            simpa using h3
          rw [fallback_loop, if_neg h1, if_neg h2, if_pos (by simp [h3'])]
          exact ih

/-! # Claim theorems -/

/-- **C1 (counterexample).**  The claim says no entry exists for an
ignore-matched directory.  On the concrete input where the root folder
`/proj` itself matches the user ignore pattern `/proj`, the scan still
registers an entry for `/proj`: `build_tree_for` registers root folders
without consulting `filters_match`. -/
theorem c1_counterexample :
    lookupEntry (build_all_trees fsRoot cfgRoot 3 ["/proj"]).folder_tree_data "/proj" =
      some ⟨false, true⟩ ∧
    filters_match cfgRoot "/proj" = true := by
  constructor <;> decide

/-- **C1 (amended).**  After a full scan (`build_all_trees`) and any number
of poller passes (`poll_folder`), every path holding an entry in the TreeNode
mapping either is one of the root folders (registered without an ignore
check) or did not itself match the ignore patterns when it was inserted; the
guarantee covers only the entry's own path, not its ancestors. -/
theorem c1_amended (fs : FileSys) (cfg : FilterConfig) (fuel nPolls : Nat)
    (roots : List String) (p : String) (v : NodeInfo)
    (h : lookupEntry (poll_iter fs cfg fuel roots nPolls
        (build_all_trees fs cfg fuel roots)).folder_tree_data p = some v) :
    p ∈ roots ∨ filters_match cfg p = false := by
  have hsat : EntriesSat (fun q _ => q ∈ roots ∨ filters_match cfg q = false)
      (poll_iter fs cfg fuel roots nPolls
        (build_all_trees fs cfg fuel roots)).folder_tree_data :=
    poll_iter_entriesSat (P := fun q _ => q ∈ roots ∨ filters_match cfg q = false)
      (fun _ _ hm => Or.inr hm) fuel roots nPolls _
      (build_all_trees_entriesSat
        (P := fun q _ => q ∈ roots ∨ filters_match cfg q = false)
        (fun _ _ hm => Or.inr hm) fuel roots (fun f hf => Or.inl hf))
  exact hsat (p, v) (lookupEntry_mem _ p v h)

/-- **C1 (witness).** -/
theorem c1_amended_witness :
    lookupEntry (poll_iter fs6 cfg6 5 ["/proj"] 1
        (build_all_trees fs6 cfg6 5 ["/proj"])).folder_tree_data "/proj/src" =
      some ⟨false, true⟩ ∧
    ("/proj/src" ∈ ["/proj"] ∨ filters_match cfg6 "/proj/src" = false) :=
  ⟨by decide, c1_amended fs6 cfg6 5 1 ["/proj"] "/proj/src" ⟨false, true⟩ (by decide)⟩

/-- **C2 (confirmed).**  Within one scan generation (`build_all_trees` with a
fresh visited set), the ghost trace of canonical paths of directories whose
contents were listed has no duplicates: each directory, identified by its
symlink-resolved path, is expanded at most once even when reachable through
several parent paths or a symlink to an ancestor (the theorem quantifies over
every filesystem, including cyclic ones), so no duplicate subtree is
produced and — since the visited set grows on every expansion within the
finite canonical-path universe — the enumeration terminates. -/
theorem c2_expansion_dedup (fs : FileSys) (cfg : FilterConfig) (fuel : Nat)
    (roots : List String) :
    (build_all_trees fs cfg fuel roots).expanded.Nodup :=
  (build_all_trees_goodState fuel roots).1

/-- **C3 (counterexample).**  The monitor loop that actually guards the scan
(`load_settings_windows_timeout_with_dialog`) declares a timeout as soon as
the elapsed time exceeds the budget: with budget 60 it times out at 61
seconds, strictly before the claimed 60 + 30 grace deadline. -/
theorem c3_counterexample :
    (wtdRun 60 ⟨true, false⟩ [⟨true, CancelFlag.notCancelled, 61⟩]).1 =
      MonitorOutcome.timedOut ∧ (61 : ℚ) < 60 + 30 := by
  constructor
  · decide
  · norm_num

/-- **C3 (amended).**  Only `_monitor_thread_non_blocking` applies the single
+30 s grace extension: over any trace of polls in which the worker stays
alive and the operator does not cancel, it declares `TimedOut` exactly when
some poll observes elapsed ≥ T + 30 (so never earlier than the grace
deadline, and at the first poll past it); the dialog monitor loop
(`load_settings_windows_timeout_with_dialog`) instead declares `TimedOut`
exactly when some poll observes elapsed > T, with no grace period. -/
theorem c3_amended (T : ℚ) (polls : List Poll)
    (h : ∀ p ∈ polls, p.threadAlive = true ∧ p.cancelFlag = CancelFlag.notCancelled) :
    (monitorRun (some T) polls = .timedOut ↔ ∃ p ∈ polls, T + 30 ≤ p.elapsed) ∧
    ((wtdRun T ⟨true, false⟩ polls).1 = .timedOut ↔ ∃ p ∈ polls, T < p.elapsed) :=
  ⟨monitorRun_timedOut_iff T polls h, wtdRun_timedOut_iff T polls h⟩

/-- **C3 (witness).** -/
theorem c3_amended_witness :
    (∀ p ∈ [(⟨true, CancelFlag.notCancelled, 95⟩ : Poll)],
      p.threadAlive = true ∧ p.cancelFlag = CancelFlag.notCancelled) ∧
    ((monitorRun (some 60) [(⟨true, CancelFlag.notCancelled, 95⟩ : Poll)] = .timedOut ↔
        ∃ p ∈ [(⟨true, CancelFlag.notCancelled, 95⟩ : Poll)], (60 : ℚ) + 30 ≤ p.elapsed) ∧
      ((wtdRun 60 ⟨true, false⟩ [(⟨true, CancelFlag.notCancelled, 95⟩ : Poll)]).1 = .timedOut ↔
        ∃ p ∈ [(⟨true, CancelFlag.notCancelled, 95⟩ : Poll)], (60 : ℚ) < p.elapsed)) :=
  ⟨by
    intro p hp
    rw [List.mem_singleton] at hp
    subst hp
    exact ⟨rfl, rfl⟩,
   c3_amended 60 [(⟨true, CancelFlag.notCancelled, 95⟩ : Poll)] (by
    intro p hp
    rw [List.mem_singleton] at hp
    subst hp
    exact ⟨rfl, rfl⟩)⟩

/-- **C4 (counterexample).**  The claim says the fallback selector never
returns the failed profile.  When the failed profile is `"default"` and no
other profile qualifies, the final `return "default"` returns exactly the
failed profile. -/
theorem c4_counterexample :
    find_working_fallback_profile c4Store = c4Store.currentProfile := by decide

/-- **C4 (amended).**  The selector is deterministic and total and equals the
first-accepted-candidate specification (default profile ranked first,
`"default"` when no candidate qualifies); it never returns the failed profile
except that, when the failed profile is `"default"` itself, `"default"` is
still returned as the terminal fallback. -/
theorem c4_amended (st : ProfileStore) :
    find_working_fallback_profile st = chooseFallbackSpec st ∧
    (find_working_fallback_profile st = st.currentProfile →
      st.currentProfile = "default") := by
  have heq : find_working_fallback_profile st = chooseFallbackSpec st :=
    fallback_loop_eq_find st _
  refine ⟨heq, ?_⟩
  intro hcur
  rw [heq] at hcur
  unfold chooseFallbackSpec at hcur
  cases hfind : (("default" :: (get_available_profiles st).filter fun p => p ≠ "default").find?
      fun p => fallback_accepts st p) with
  | none =>
    rw [hfind] at hcur
    simpa using hcur.symm
  | some q =>
    rw [hfind] at hcur
    simp only [Option.getD_some] at hcur
    have hacc := List.find?_some hfind
    have hne : q ≠ st.currentProfile := by
      simp only [fallback_accepts, Bool.and_eq_true, decide_eq_true_eq] at hacc
      exact hacc.1
    exact absurd hcur hne

/-- **C4 (witness).** -/
theorem c4_amended_witness :
    find_working_fallback_profile c4Store = chooseFallbackSpec c4Store ∧
    c4Store.currentProfile = "default" :=
  ⟨(c4_amended c4Store).1, (c4_amended c4Store).2 (by decide)⟩

/-- **C5 (code bug).**  The comment at source line 1827 says the hidden-file
rule skips the `'.'` and `'..'` directories, and the claim requires `'..'` to
be excluded, but the code's guard `len(basename) > 1` only excludes `'.'`:
with the system-folder filter enabled and no user patterns, `filters_match`
reports the path `".."` as ignored. -/
theorem c5_hidden_rule_dotdot :
    filters_match ⟨[], default_ignore_patterns, true⟩ ".." = true := by decide

/-- **C6 (confirmed).**  The spec's scenario: scanning root `/proj`
containing `.git/config`, `src/a.py` and `src/a.py~` with ignore patterns
`*/.git/*` and `*~` (and the system-folder filter at its default, enabled)
produces a TreeNode mapping whose keys are exactly `/proj`, `/proj/src` and
`/proj/src/a.py`, in insertion order. -/
theorem c6_scenario :
    (build_all_trees fs6 cfg6 5 ["/proj"]).folder_tree_data.map Prod.fst =
      ["/proj", "/proj/src", "/proj/src/a.py"] := by decide

/-- **C7 (counterexample).**  The claim says `DisableTimeouts` changes no
state outside the current attempt and that the next attempt enforces the
budget again.  In fact the monitor loop clears the app-wide
`enable_timeouts` variable (which `save_settings` then persists), and a
subsequent attempt running with that cleared flag never times out, even at
elapsed 1000 s against a 60 s budget. -/
theorem c7_counterexample :
    (wtdRun 60 ⟨true, false⟩
        [⟨true, CancelFlag.disableTimeouts, 10⟩,
         ⟨true, CancelFlag.notCancelled, 1000⟩]).2.enable_timeouts = false ∧
    (save_settings [] [] [] true
        (wtdRun 60 ⟨true, false⟩
          [⟨true, CancelFlag.disableTimeouts, 10⟩,
           ⟨true, CancelFlag.notCancelled, 1000⟩]).2.enable_timeouts).enable_timeouts =
      false ∧
    (wtdRun 60 ⟨false, false⟩ [⟨true, CancelFlag.notCancelled, 1000⟩]).1 ≠
      MonitorOutcome.timedOut := by
  refine ⟨?_, ?_, ?_⟩ <;> decide

/-- **C7 (amended).**  `DisableTimeouts` suspends the elapsed-time check for
the remainder of the current attempt (no later poll of that attempt can
declare `TimedOut`), but it also clears the app-wide `enable_timeouts`
variable, which `save_settings` writes to the persisted configuration, and
any subsequent attempt started with that cleared flag never enforces the
time budget. -/
theorem c7_amended (T e : ℚ) (rest : List Poll) (s : WtdState)
    (roots : List String) (ftd : FolderData) (pats : List String) (fsf : Bool) :
    (wtdRun T s (⟨true, CancelFlag.disableTimeouts, e⟩ :: rest)).1 ≠ .timedOut ∧
    (wtdRun T s (⟨true, CancelFlag.disableTimeouts, e⟩ :: rest)).2.enable_timeouts = false ∧
    (save_settings roots ftd pats fsf
      (wtdRun T s
        (⟨true, CancelFlag.disableTimeouts, e⟩ :: rest)).2.enable_timeouts).enable_timeouts =
      false ∧
    (∀ polls, (wtdRun T ⟨false, false⟩ polls).1 ≠ .timedOut) := by
  have hstep : wtdRun T s (⟨true, CancelFlag.disableTimeouts, e⟩ :: rest) =
      wtdRun T ⟨false, true⟩ rest := rfl
  have hoff := wtdRun_enable_false T rest ⟨false, true⟩ rfl
  refine ⟨?_, ?_, ?_, ?_⟩
  · rw [hstep]; exact hoff.1
  · rw [hstep]; exact hoff.2
  · rw [hstep]
    simp only [save_settings]
    exact hoff.2
  · intro polls
    exact (wtdRun_enable_false T polls ⟨false, false⟩ rfl).1

/-- **C8 (counterexample).**  The claim says the cancellation flag undergoes
at most one writer transition and is never overwritten with a different
cancellation value.  Pressing `Disable Timeouts` and then `Cancel` (both
buttons stay wired to their handlers) overwrites `disable_timeouts` with
`cancel` within the same attempt. -/
theorem c8_counterexample :
    applyEvents CancelFlag.notCancelled
        [DialogEvent.pressDisable, DialogEvent.pressCancel] = CancelFlag.cancel ∧
    applyEvents CancelFlag.notCancelled [DialogEvent.pressDisable] =
      CancelFlag.disableTimeouts ∧
    is_cancelled (applyEvents CancelFlag.notCancelled [DialogEvent.pressDisable]) = true ∧
    CancelFlag.cancel ≠ CancelFlag.disableTimeouts := by
  refine ⟨?_, ?_, ?_, ?_⟩ <;> decide

/-- **C8 (amended).**  The flag is monotonic — once any cancellation value is
set, no sequence of button presses returns it to the not-cancelled state, and
it is never not-cancelled after at least one press — but a later press may
overwrite it with a different cancellation value. -/
theorem c8_amended : ∀ (evs : List DialogEvent) (s : CancelFlag),
    (is_cancelled s = true → is_cancelled (applyEvents s evs) = true) ∧
    (applyEvents s evs = CancelFlag.notCancelled →
      evs = [] ∧ s = CancelFlag.notCancelled) := by
  intro evs
  induction evs with
  | nil =>
    intro s
    exact ⟨fun h => h, fun h => ⟨rfl, h⟩⟩
  | cons e es ih =>
    intro s
    constructor
    · intro _
      apply (ih (applyEvent s e)).1
      cases e <;> rfl
    · intro h
      have h2 := (ih (applyEvent s e)).2 h
      exfalso
      cases e <;>
        simp [applyEvent, on_skip, on_cancel, on_disable_timeouts] at h2

/-- **C8 (witness).** -/
theorem c8_amended_witness :
    is_cancelled CancelFlag.skip = true ∧
    is_cancelled (applyEvents CancelFlag.skip [DialogEvent.pressCancel]) = true :=
  ⟨by decide, (c8_amended [DialogEvent.pressCancel] CancelFlag.skip).1 (by decide)⟩

/-- **C9 (confirmed).**  Across a save/load cycle, exactly the
path-to-checked mapping survives: `save_settings` writes one `folder_checks`
entry per mapping path with its checked state, and after a rescan
(`build_all_trees`, all nodes unchecked) followed by `apply_saved_checks`,
a path is checked exactly when it was checked in the saved mapping, is
present in the rebuilt mapping and is not ignore-matched; saved paths absent
from the rebuilt mapping are dropped. -/
theorem c9_round_trip (fs : FileSys) (cfg : FilterConfig) (fuel : Nat)
    (roots oldRoots pats : List String) (fsf en : Bool)
    (ftd_old : FolderData) (hnd : (ftd_old.map Prod.fst).Nodup) (p : String) :
    (lookupEntry (apply_saved_checks cfg
        (save_settings oldRoots ftd_old pats fsf en).folder_checks
        (build_all_trees fs cfg fuel roots).folder_tree_data) p).map NodeInfo.checked =
      some true ↔
    ((lookupEntry ftd_old p).map NodeInfo.checked = some true ∧
      (lookupEntry (build_all_trees fs cfg fuel roots).folder_tree_data p).isSome = true ∧
      filters_match cfg p = false) := by
  have hsaved_keys :
      ((save_settings oldRoots ftd_old pats fsf en).folder_checks.map Prod.fst).Nodup := by
    simp only [save_settings]
    rw [folder_checks_keys]
    exact hnd
  have hsavedlookup :
      lookupEntry (save_settings oldRoots ftd_old pats fsf en).folder_checks p =
        (lookupEntry ftd_old p).map NodeInfo.checked :=
    lookupEntry_folder_checks ftd_old p
  have hunch : ∀ (v : NodeInfo),
      lookupEntry (build_all_trees fs cfg fuel roots).folder_tree_data p = some v →
      v.checked = false := fun v hv =>
    build_all_trees_unchecked fs cfg fuel roots (p, v) (lookupEntry_mem _ p v hv)
  cases hold : lookupEntry ftd_old p with
  | none =>
    have hsn : lookupEntry (save_settings oldRoots ftd_old pats fsf en).folder_checks p =
        none := by
      rw [hsavedlookup, hold]
      rfl
    rw [apply_saved_checks_not_saved cfg _ _ p hsn]
    constructor
    · intro hL
      exfalso
      cases hv : lookupEntry (build_all_trees fs cfg fuel roots).folder_tree_data p with
      | none => rw [hv] at hL; simp at hL
      | some v =>
        rw [hv] at hL
        simp only [Option.map_some', Option.some.injEq] at hL
        rw [hunch v hv] at hL
        simp at hL
    · rintro ⟨h1, _, _⟩
      simp at h1
  | some w =>
    have hsv : lookupEntry (save_settings oldRoots ftd_old pats fsf en).folder_checks p =
        some w.checked := by
      rw [hsavedlookup, hold]
      rfl
    rw [apply_saved_checks_lookup cfg _ _ p w.checked hsaved_keys hsv]
    by_cases hcond : ((lookupEntry
        (build_all_trees fs cfg fuel roots).folder_tree_data p).isSome &&
        !filters_match cfg p) = true
    · rw [if_pos hcond]
      simp only [Bool.and_eq_true, Bool.not_eq_true'] at hcond
      obtain ⟨hps, hfm⟩ := hcond
      cases hv : lookupEntry (build_all_trees fs cfg fuel roots).folder_tree_data p with
      | none => rw [hv] at hps; simp at hps
      | some v =>
        simp [hfm]
    · rw [if_neg hcond]
      constructor
      · intro hL
        exfalso
        cases hv : lookupEntry (build_all_trees fs cfg fuel roots).folder_tree_data p with
        | none => rw [hv] at hL; simp at hL
        | some v =>
          rw [hv] at hL
          simp only [Option.map_some', Option.some.injEq] at hL
          rw [hunch v hv] at hL
          simp at hL
      · rintro ⟨_, h2, h3⟩
        exact absurd (by simp [h2, h3]) hcond

/-- **C9 (witness).** -/
theorem c9_round_trip_witness :
    (([("/proj/src/a.py", (⟨true, false⟩ : NodeInfo))] : FolderData).map Prod.fst).Nodup ∧
    ((lookupEntry (apply_saved_checks cfg6
        (save_settings [] [("/proj/src/a.py", (⟨true, false⟩ : NodeInfo))] [] true true).folder_checks
        (build_all_trees fs6 cfg6 5 ["/proj"]).folder_tree_data)
        "/proj/src/a.py").map NodeInfo.checked = some true ↔
      ((lookupEntry ([("/proj/src/a.py", (⟨true, false⟩ : NodeInfo))] : FolderData)
          "/proj/src/a.py").map NodeInfo.checked = some true ∧
        (lookupEntry (build_all_trees fs6 cfg6 5 ["/proj"]).folder_tree_data
          "/proj/src/a.py").isSome = true ∧
        filters_match cfg6 "/proj/src/a.py" = false)) :=
  ⟨by decide,
   c9_round_trip fs6 cfg6 5 ["/proj"] [] [] true true
     [("/proj/src/a.py", (⟨true, false⟩ : NodeInfo))] (by decide) "/proj/src/a.py"⟩

/-- **C10 (counterexample).**  The claim says no export ever includes an
ignore-matched path.  With the mapping holding the (previously scanned,
now ignore-matched) root `/proj` and copy-entire-tree mode active, the full
file-tree export lists `/proj` even after `validate_checked_items` ran. -/
theorem c10_counterexample :
    "/proj" ∈ build_full_file_tree_text fsRoot 3 ["/proj"]
      (validate_checked_items cfgRoot ftdRoot) ∧
    filters_match cfgRoot "/proj" = true := by
  constructor <;> decide

/-- **C10 (amended).**  `validate_checked_items` forces `checked = false` on
every ignore-matched entry, so the checked-items selections feeding the
checked file tree (`build_checked_file_tree_text`) and the file-contents
block (`build_file_contents_text`) never contain an ignore-matched path; the
full-tree export (copy-entire-tree mode) ignores checked state and may still
list an ignore-matched mapping entry. -/
theorem c10_amended (cfg : FilterConfig) (ftd : FolderData) (p : String)
    (h : p ∈ checked_paths (validate_checked_items cfg ftd) ∨
      p ∈ checked_files (validate_checked_items cfg ftd)) :
    filters_match cfg p = false := by
  rcases h with h | h
  · unfold checked_paths at h
    obtain ⟨e, he, rfl⟩ := List.mem_map.mp h
    have he2 := List.mem_filter.mp he
    exact validate_checked_entries cfg ftd e he2.1 (by simpa using he2.2)
  · unfold checked_files at h
    obtain ⟨e, he, rfl⟩ := List.mem_map.mp h
    have he2 := List.mem_filter.mp he
    have hch : e.2.checked = true := by
      have h3 := he2.2
      simp only [Bool.and_eq_true] at h3
      exact h3.1
    exact validate_checked_entries cfg ftd e he2.1 hch

/-- **C10 (witness).** -/
theorem c10_amended_witness :
    ("a" ∈ checked_paths (validate_checked_items ⟨[], [], false⟩ [("a", ⟨true, false⟩)]) ∨
      "a" ∈ checked_files (validate_checked_items ⟨[], [], false⟩ [("a", ⟨true, false⟩)])) ∧
    filters_match ⟨[], [], false⟩ "a" = false :=
  ⟨Or.inl (by decide), c10_amended ⟨[], [], false⟩ [("a", ⟨true, false⟩)] "a" (Or.inl (by decide))⟩

end CodeLLMBridge
